import Mathlib

/-!
Verification of the armour-point allocator of the BattleTech Vehicle Armour
Calculator (function calculate_armour_distribution, identical in BVAC_v1.3.py
and BVAC_v1.4.py).

The allocator is embedded shallowly: the Python dict of facings is a list of
key/value pairs kept in insertion order, the decimal share literals become the
exact rationals they denote, and the Python built-in round (round half to
even) becomes pyRound on rationals.
-/

namespace BVAC

/-- Vehicle facings, in the insertion order of the source's share table. -/
inductive Facing : Type
  | Front
  | LeftSide
  | RightSide
  | Rear
  | Turret
deriving DecidableEq, Repr

open Facing

/-- Python's built-in round on an exact rational: round half to even.
A rational q with floor n rounds to n when q < n + 1/2, to n + 1 when
n + 1/2 < q, and at the midpoint to whichever of n, n + 1 is even
(the comparisons are written with 2*q to keep them integer-friendly). -/
def pyRound (q : ℚ) : ℤ :=
  if 2 * q < 2 * ⌊q⌋ + 1 then ⌊q⌋
  else if 2 * (⌊q⌋ : ℚ) + 1 < 2 * q then ⌊q⌋ + 1
  else if ⌊q⌋ % 2 = 0 then ⌊q⌋ else ⌊q⌋ + 1

/-- round_to_nearest_5: 5 * round(n / 5). -/
def round_to_nearest_5 (n : ℚ) : ℤ := 5 * pyRound (n / 5)

/-- round_up_to_5: 5 * math.ceil(n / 5). -/
def round_up_to_5 (n : ℚ) : ℤ := 5 * ⌈n / 5⌉

/-- Sum of the values of a facing/value table. -/
def sumVals (l : List (Facing × ℤ)) : ℤ := (l.map (fun p => p.2)).sum

/-- Keys of a facing/value table, in order. -/
def keysOf {β : Type} (l : List (Facing × β)) : List Facing := l.map (fun p => p.1)

/-- Value of a key in an integer table, defaulting to 0
(dict access / dict.get(key, 0)). -/
def getVal : List (Facing × ℤ) → Facing → ℤ
  | [], _ => 0
  | (g, v) :: rest, f => if g = f then v else getVal rest f

/-- Value of a key in a rational table, defaulting to 0. -/
def getValQ : List (Facing × ℚ) → Facing → ℚ
  | [], _ => 0
  | (g, v) :: rest, f => if g = f then v else getValQ rest f

/-- Membership test for a key (the Python `in` operator on a dict). -/
def hasKey {β : Type} (l : List (Facing × β)) (f : Facing) : Bool :=
  l.any (fun p => p.1 = f)

/-- Update the value at an existing key, leaving order and other keys alone. -/
def setVal (l : List (Facing × ℤ)) (f : Facing) (v : ℤ) : List (Facing × ℤ) :=
  l.map (fun p => if p.1 = f then (p.1, v) else p)

/-- base_distribution: the fixed share table of the source, insertion order
Front, Left Side, Right Side, Rear, Turret. -/
def base_distribution : List (Facing × ℚ) :=
  [(Front, 0.30), (LeftSide, 0.208), (RightSide, 0.208),
   (Rear, 0.117), (Turret, 0.167)]

/-- distribution_percent: if remove_turret, pop the Turret entry and add
turret_share / len(remaining) to each remaining share. -/
def distribution_percent (remove_turret : Bool) : List (Facing × ℚ) :=
  if remove_turret then
    let turret_share : ℚ := getValQ base_distribution Turret
    let remaining := base_distribution.filter (fun p => ¬ p.1 = Turret)
    remaining.map (fun p => (p.1, p.2 + turret_share / (remaining.length : ℚ)))
  else base_distribution

/-- raw_allocations: loc ↦ total_armour_points * pct. -/
def raw_allocations (total_armour_points : ℤ) (remove_turret : Bool) :
    List (Facing × ℚ) :=
  (distribution_percent remove_turret).map
    (fun p => (p.1, (total_armour_points : ℚ) * p.2))

/-- Per-facing nearest-integer rounding of the raw allocations
(the `round(points)` comprehension of the default branch). -/
def default_rounding (total_armour_points : ℤ) (remove_turret : Bool) :
    List (Facing × ℤ) :=
  (raw_allocations total_armour_points remove_turret).map
    (fun p => (p.1, pyRound p.2))

/-- allocated: sum of the nearest-integer roundings. -/
def allocated (total_armour_points : ℤ) (remove_turret : Bool) : ℤ :=
  sumVals (default_rounding total_armour_points remove_turret)

/-- The default branch's shortfall loop: walk the table in order and add one
point to each entry while the leftover is not yet exhausted. -/
def distribute : ℤ → List (Facing × ℤ) → List (Facing × ℤ)
  | _, [] => []
  | leftover, (f, v) :: rest =>
      if leftover = 0 then (f, v) :: rest
      else (f, v + 1) :: distribute (leftover - 1) rest

/-- rounded_allocations of the coarse branch: Front rounds up to a multiple
of 5, every other facing rounds to the nearest multiple of 5. -/
def rounded_allocations (total_armour_points : ℤ) (remove_turret : Bool) :
    List (Facing × ℤ) :=
  (raw_allocations total_armour_points remove_turret).map
    (fun p => (p.1, if p.1 = Front then round_up_to_5 p.2
                    else round_to_nearest_5 p.2))

/-- total_rounded: sum of the coarse roundings. -/
def total_rounded (total_armour_points : ℤ) (remove_turret : Bool) : ℤ :=
  sumVals (rounded_allocations total_armour_points remove_turret)

/-- The coarse branch's reconciliation: an overage comes out of Rear when Rear
can absorb it, else Rear drops to 0 and the remaining deficit comes out of
Turret (clamped at 0) when Turret is present; a shortfall is added to Front.
Rear is always a key of the table, so updating it in place is the same as the
source's dict assignment. -/
def reconcile (total_armour_points : ℤ) (ra : List (Facing × ℤ)) :
    List (Facing × ℤ) :=
  if total_armour_points < sumVals ra then
    let overage := sumVals ra - total_armour_points
    if hasKey ra Rear ∧ overage ≤ getVal ra Rear then
      setVal ra Rear (getVal ra Rear - overage)
    else
      let deficit := overage - getVal ra Rear
      let ra1 := setVal ra Rear 0
      if hasKey ra1 Turret then
        setVal ra1 Turret (max 0 (getVal ra1 Turret - deficit))
      else ra1
  else if sumVals ra < total_armour_points then
    setVal ra Front (getVal ra Front + (total_armour_points - sumVals ra))
  else ra

/-- calculate_armour_distribution: distribute total armour points to vehicle
facings, with optional turret removal and optional coarse rounding. -/
def calculate_armour_distribution (total_armour_points : ℤ)
    (round_each : Bool := false) (remove_turret : Bool := false) :
    List (Facing × ℤ) :=
  if round_each = false then
    let armour := default_rounding total_armour_points remove_turret
    let leftover := total_armour_points - allocated total_armour_points remove_turret
    if 0 < leftover then distribute leftover armour else armour
  else
    reconcile total_armour_points
      (rounded_allocations total_armour_points remove_turret)

/-- The surviving facings, in table order. -/
def survivingFacings (remove_turret : Bool) : List Facing :=
  if remove_turret then [Front, LeftSide, RightSide, Rear]
  else [Front, LeftSide, RightSide, Rear, Turret]

/-- Modelled from the spec's wording of the shortfall pass (step 3a): the
shortfall is distributed one point at a time over the facings in iteration
order, so the first `L` facings of the table each gain exactly one point and
the rest are unchanged. Stated as a second definition to compare the source's
loop against. -/
def spec_shortfall_distribution (L : ℤ) (l : List (Facing × ℤ)) :
    List (Facing × ℤ) :=
  (l.take L.toNat).map (fun p => (p.1, p.2 + 1)) ++ l.drop L.toNat

/-! ### Evaluation lemmas for the share tables and allocation stages -/

/-- Ceilings reduce to floors, so that concrete values can be computed. -/
theorem ceil_as_floor (q : ℚ) : ⌈q⌉ = -⌊-q⌋ := by simp [Int.floor_neg]

theorem distribution_percent_false :
    distribution_percent false =
      [(Front, 3/10), (LeftSide, 26/125), (RightSide, 26/125),
       (Rear, 117/1000), (Turret, 167/1000)] := by
  norm_num [distribution_percent, base_distribution]

theorem turret_share_eval : getValQ base_distribution Turret = (0.167 : ℚ) := rfl

theorem filtered_base :
    base_distribution.filter (fun p => ¬ p.1 = Turret) =
      [(Front, 0.30), (LeftSide, 0.208), (RightSide, 0.208), (Rear, 0.117)] := rfl

theorem distribution_percent_true :
    distribution_percent true =
      [(Front, 1367/4000), (LeftSide, 999/4000), (RightSide, 999/4000),
       (Rear, 127/800)] := by
  rw [distribution_percent]
  simp only [if_true, turret_share_eval, filtered_base]
  norm_num

theorem raw_allocations_false (T : ℤ) :
    raw_allocations T false =
      [(Front, (T : ℚ) * (3/10)), (LeftSide, (T : ℚ) * (26/125)),
       (RightSide, (T : ℚ) * (26/125)), (Rear, (T : ℚ) * (117/1000)),
       (Turret, (T : ℚ) * (167/1000))] := by
  simp [raw_allocations, distribution_percent_false]

theorem raw_allocations_true (T : ℤ) :
    raw_allocations T true =
      [(Front, (T : ℚ) * (1367/4000)), (LeftSide, (T : ℚ) * (999/4000)),
       (RightSide, (T : ℚ) * (999/4000)), (Rear, (T : ℚ) * (127/800))] := by
  simp [raw_allocations, distribution_percent_true]

theorem default_rounding_false (T : ℤ) :
    default_rounding T false =
      [(Front, pyRound ((T : ℚ) * (3/10))), (LeftSide, pyRound ((T : ℚ) * (26/125))),
       (RightSide, pyRound ((T : ℚ) * (26/125))), (Rear, pyRound ((T : ℚ) * (117/1000))),
       (Turret, pyRound ((T : ℚ) * (167/1000)))] := by
  simp [default_rounding, raw_allocations_false]

theorem default_rounding_true (T : ℤ) :
    default_rounding T true =
      [(Front, pyRound ((T : ℚ) * (1367/4000))), (LeftSide, pyRound ((T : ℚ) * (999/4000))),
       (RightSide, pyRound ((T : ℚ) * (999/4000))), (Rear, pyRound ((T : ℚ) * (127/800)))] := by
  simp [default_rounding, raw_allocations_true]

theorem rounded_allocations_false (T : ℤ) :
    rounded_allocations T false =
      [(Front, round_up_to_5 ((T : ℚ) * (3/10))),
       (LeftSide, round_to_nearest_5 ((T : ℚ) * (26/125))),
       (RightSide, round_to_nearest_5 ((T : ℚ) * (26/125))),
       (Rear, round_to_nearest_5 ((T : ℚ) * (117/1000))),
       (Turret, round_to_nearest_5 ((T : ℚ) * (167/1000)))] := by
  simp [rounded_allocations, raw_allocations_false]

theorem rounded_allocations_true (T : ℤ) :
    rounded_allocations T true =
      [(Front, round_up_to_5 ((T : ℚ) * (1367/4000))),
       (LeftSide, round_to_nearest_5 ((T : ℚ) * (999/4000))),
       (RightSide, round_to_nearest_5 ((T : ℚ) * (999/4000))),
       (Rear, round_to_nearest_5 ((T : ℚ) * (127/800)))] := by
  simp [rounded_allocations, raw_allocations_true]


/-! ### Unfolding lemmas for the two policies -/

theorem calculate_false_eq (T : ℤ) (rt : Bool) :
    calculate_armour_distribution T false rt =
      if 0 < T - allocated T rt then
        distribute (T - allocated T rt) (default_rounding T rt)
      else default_rounding T rt := rfl

theorem calculate_true_eq (T : ℤ) (rt : Bool) :
    calculate_armour_distribution T true rt =
      reconcile T (rounded_allocations T rt) := rfl

/-! ### Bounds for pyRound -/

theorem le_pyRound (q : ℚ) : q - 1/2 ≤ (pyRound q : ℚ) := by
  unfold pyRound
  have hf := Int.floor_le q
  have hc := Int.lt_floor_add_one q
  split_ifs with h1 h2 h3 <;> push_cast at * <;> linarith

theorem pyRound_le (q : ℚ) : (pyRound q : ℚ) ≤ q + 1/2 := by
  unfold pyRound
  have hf := Int.floor_le q
  have hc := Int.lt_floor_add_one q
  split_ifs with h1 h2 h3 <;> push_cast at * <;> linarith

theorem pyRound_nonneg (q : ℚ) (h : 0 ≤ q) : 0 ≤ pyRound q := by
  unfold pyRound
  have hfl : 0 ≤ ⌊q⌋ := Int.floor_nonneg.mpr h
  split_ifs <;> omega

theorem round_to_nearest_5_nonneg (q : ℚ) (h : 0 ≤ q) : 0 ≤ round_to_nearest_5 q := by
  have : 0 ≤ pyRound (q / 5) := pyRound_nonneg _ (by positivity)
  unfold round_to_nearest_5
  omega

theorem round_up_to_5_nonneg (q : ℚ) (h : 0 ≤ q) : 0 ≤ round_up_to_5 q := by
  have : 0 ≤ ⌈q / 5⌉ := Int.ceil_nonneg (by positivity)
  unfold round_up_to_5
  omega

theorem round_to_nearest_5_dvd (q : ℚ) : (5 : ℤ) ∣ round_to_nearest_5 q :=
  Dvd.intro _ rfl

theorem round_up_to_5_dvd (q : ℚ) : (5 : ℤ) ∣ round_up_to_5 q :=
  Dvd.intro _ rfl

/-! ### The shortfall loop -/

theorem sumVals_cons (f : Facing) (v : ℤ) (l : List (Facing × ℤ)) :
    sumVals ((f, v) :: l) = v + sumVals l := by
  simp [sumVals]

theorem keysOf_distribute (L : ℤ) (l : List (Facing × ℤ)) :
    keysOf (distribute L l) = keysOf l := by
  induction l generalizing L with
  | nil => rfl
  | cons p rest ih =>
      obtain ⟨f, v⟩ := p
      simp only [distribute]
      split_ifs with h
      · rfl
      · simp [keysOf] at ih ⊢
        exact ih (L - 1)

theorem distribute_nonneg (L : ℤ) (l : List (Facing × ℤ))
    (h : ∀ p ∈ l, 0 ≤ p.2) : ∀ p ∈ distribute L l, 0 ≤ p.2 := by
  induction l generalizing L with
  | nil => simp only [distribute]; simp only [List.not_mem_nil]; intro p hp; exact absurd hp (fun h => h)
  | cons p rest ih =>
      obtain ⟨f, v⟩ := p
      simp only [distribute]
      split_ifs with hL
      · exact h
      · intro p hp
        rcases List.mem_cons.mp hp with hp | hp
        · subst hp
          have hv : 0 ≤ v := h (f, v) (List.mem_cons_self _ _)
          show 0 ≤ v + 1
          omega
        · exact ih (L - 1) (fun p hp => h p (List.mem_cons_of_mem _ hp)) p hp

theorem distribute_eq_spec (L : ℤ) (l : List (Facing × ℤ))
    (h0 : 0 ≤ L) (hl : L ≤ l.length) :
    distribute L l = spec_shortfall_distribution L l := by
  unfold spec_shortfall_distribution
  induction l generalizing L with
  | nil => simp [distribute]
  | cons p rest ih =>
      obtain ⟨f, v⟩ := p
      simp only [distribute]
      split_ifs with h
      · subst h; simp
      · have h1 : 0 ≤ L - 1 := by omega
        have h2 : L - 1 ≤ rest.length := by
          simp only [List.length_cons] at hl; omega
        rw [ih (L - 1) h1 h2]
        have ht : L.toNat = (L - 1).toNat + 1 := by omega
        rw [ht]
        simp

theorem sumVals_distribute (L : ℤ) (l : List (Facing × ℤ))
    (h0 : 0 ≤ L) (hl : L ≤ l.length) :
    sumVals (distribute L l) = sumVals l + L := by
  induction l generalizing L with
  | nil =>
      have : L = 0 := by simpa using le_antisymm (by simpa using hl) h0
      simp [distribute, this]
  | cons p rest ih =>
      obtain ⟨f, v⟩ := p
      simp only [distribute]
      split_ifs with h
      · subst h; simp
      · have h1 : 0 ≤ L - 1 := by omega
        have h2 : L - 1 ≤ rest.length := by
          simp only [List.length_cons] at hl; omega
        rw [sumVals_cons, sumVals_cons, ih (L - 1) h1 h2]
        ring

/-! ### Sums of the rounding stages -/

theorem allocated_false (T : ℤ) :
    allocated T false =
      pyRound ((T : ℚ) * (3/10)) + pyRound ((T : ℚ) * (26/125)) +
      pyRound ((T : ℚ) * (26/125)) + pyRound ((T : ℚ) * (117/1000)) +
      pyRound ((T : ℚ) * (167/1000)) := by
  simp [allocated, default_rounding_false, sumVals]
  ring

theorem allocated_true (T : ℤ) :
    allocated T true =
      pyRound ((T : ℚ) * (1367/4000)) + pyRound ((T : ℚ) * (999/4000)) +
      pyRound ((T : ℚ) * (999/4000)) + pyRound ((T : ℚ) * (127/800)) := by
  simp [allocated, default_rounding_true, sumVals]
  ring

theorem total_rounded_false (T : ℤ) :
    total_rounded T false =
      round_up_to_5 ((T : ℚ) * (3/10)) + round_to_nearest_5 ((T : ℚ) * (26/125)) +
      round_to_nearest_5 ((T : ℚ) * (26/125)) + round_to_nearest_5 ((T : ℚ) * (117/1000)) +
      round_to_nearest_5 ((T : ℚ) * (167/1000)) := by
  simp [total_rounded, rounded_allocations_false, sumVals]
  ring

theorem total_rounded_true (T : ℤ) :
    total_rounded T true =
      round_up_to_5 ((T : ℚ) * (1367/4000)) + round_to_nearest_5 ((T : ℚ) * (999/4000)) +
      round_to_nearest_5 ((T : ℚ) * (999/4000)) + round_to_nearest_5 ((T : ℚ) * (127/800)) := by
  simp [total_rounded, rounded_allocations_true, sumVals]
  ring

/-- The default roundings undershoot the total by at most 5/2, so a positive
leftover is at most 2 (five facings). -/
theorem sub_allocated_le_two_false (T : ℤ) : T - allocated T false ≤ 2 := by
  have b1 := le_pyRound ((T : ℚ) * (3/10))
  have b2 := le_pyRound ((T : ℚ) * (26/125))
  have b3 := le_pyRound ((T : ℚ) * (117/1000))
  have b4 := le_pyRound ((T : ℚ) * (167/1000))
  have key : ((T - allocated T false : ℤ) : ℚ) ≤ 5/2 := by
    rw [allocated_false]; push_cast; linarith
  have key2 : ((T - allocated T false : ℤ) : ℚ) < 3 := lt_of_le_of_lt key (by norm_num)
  have key3 : T - allocated T false < 3 := by exact_mod_cast key2
  omega

/-- The default roundings undershoot the total by at most 2 (four facings). -/
theorem sub_allocated_le_two_true (T : ℤ) : T - allocated T true ≤ 2 := by
  have b1 := le_pyRound ((T : ℚ) * (1367/4000))
  have b2 := le_pyRound ((T : ℚ) * (999/4000))
  have b3 := le_pyRound ((T : ℚ) * (127/800))
  have key : ((T - allocated T true : ℤ) : ℚ) ≤ 2 := by
    rw [allocated_true]; push_cast; linarith
  have key2 : T - allocated T true ≤ 2 := by exact_mod_cast key
  exact key2

/-! ### Reconciliation on explicit five and four entry tables -/

theorem reconcile_eval5 (T r1 r2 r3 r4 r5 : ℤ) :
    reconcile T [(Front, r1), (LeftSide, r2), (RightSide, r3), (Rear, r4), (Turret, r5)] =
      if T < r1 + r2 + r3 + r4 + r5 then
        if r1 + r2 + r3 + r4 + r5 - T ≤ r4 then
          [(Front, r1), (LeftSide, r2), (RightSide, r3),
           (Rear, r4 - (r1 + r2 + r3 + r4 + r5 - T)), (Turret, r5)]
        else
          [(Front, r1), (LeftSide, r2), (RightSide, r3), (Rear, 0),
           (Turret, max 0 (r5 - (r1 + r2 + r3 + r4 + r5 - T - r4)))]
      else if r1 + r2 + r3 + r4 + r5 < T then
        [(Front, r1 + (T - (r1 + r2 + r3 + r4 + r5))), (LeftSide, r2),
         (RightSide, r3), (Rear, r4), (Turret, r5)]
      else
        [(Front, r1), (LeftSide, r2), (RightSide, r3), (Rear, r4), (Turret, r5)] := by
  simp only [reconcile, sumVals, hasKey, getVal, setVal, List.map, List.sum_cons,
    List.sum_nil, List.any]
  norm_num
  split_ifs <;> simp_all <;> omega

theorem reconcile_eval4 (T r1 r2 r3 r4 : ℤ) :
    reconcile T [(Front, r1), (LeftSide, r2), (RightSide, r3), (Rear, r4)] =
      if T < r1 + r2 + r3 + r4 then
        if r1 + r2 + r3 + r4 - T ≤ r4 then
          [(Front, r1), (LeftSide, r2), (RightSide, r3),
           (Rear, r4 - (r1 + r2 + r3 + r4 - T))]
        else
          [(Front, r1), (LeftSide, r2), (RightSide, r3), (Rear, 0)]
      else if r1 + r2 + r3 + r4 < T then
        [(Front, r1 + (T - (r1 + r2 + r3 + r4))), (LeftSide, r2),
         (RightSide, r3), (Rear, r4)]
      else
        [(Front, r1), (LeftSide, r2), (RightSide, r3), (Rear, r4)] := by
  simp only [reconcile, sumVals, hasKey, getVal, setVal, List.map, List.sum_cons,
    List.sum_nil, List.any]
  norm_num
  split_ifs <;> simp_all <;> omega

/-- The keys of the result are always exactly the surviving facings. -/
theorem keysOf_calculate (T : ℤ) (re rt : Bool) :
    keysOf (calculate_armour_distribution T re rt) = survivingFacings rt := by
  cases re with
  | false =>
      rw [calculate_false_eq]
      cases rt with
      | false =>
          split_ifs with h
          · rw [keysOf_distribute]
            simp [default_rounding_false, keysOf, survivingFacings]
          · simp [default_rounding_false, keysOf, survivingFacings]
      | true =>
          split_ifs with h
          · rw [keysOf_distribute]
            simp [default_rounding_true, keysOf, survivingFacings]
          · simp [default_rounding_true, keysOf, survivingFacings]
  | true =>
      rw [calculate_true_eq]
      cases rt with
      | false =>
          rw [rounded_allocations_false, reconcile_eval5]
          split_ifs <;> simp [keysOf, survivingFacings]
      | true =>
          rw [rounded_allocations_true, reconcile_eval4]
          split_ifs <;> simp [keysOf, survivingFacings]

/-! ### Claims -/

/-- C1: the spec's default-policy sum invariant (sum of values equals
total_points for every non-negative total) fails on the code. At
total_points = 3 with round_each = false and remove_turret = false the five
nearest-integer roundings already sum to 4; the leftover pass only handles a
positive leftover, so the function returns a table summing to 4, not 3. -/
theorem C1_default_sum_fails_at_3 :
    calculate_armour_distribution 3 false false =
      [(Front, 1), (LeftSide, 1), (RightSide, 1), (Rear, 0), (Turret, 1)] ∧
    sumVals (calculate_armour_distribution 3 false false) = 4 := by
  have h1 : default_rounding 3 false =
      [(Front, 1), (LeftSide, 1), (RightSide, 1), (Rear, 0), (Turret, 1)] := by
    rw [default_rounding_false]
    norm_num [pyRound]
  have h2 : allocated 3 false = 4 := by rw [allocated, h1]; rfl
  have hmain : calculate_armour_distribution 3 false false =
      [(Front, 1), (LeftSide, 1), (RightSide, 1), (Rear, 0), (Turret, 1)] := by
    rw [calculate_armour_distribution]
    simp only [h1, h2]
    decide
  exact ⟨hmain, by rw [hmain]; rfl⟩

/-- C8: scenario A. calculate_armour_distribution(480, round_each = false,
remove_turret = false) returns Front 144, Left Side 100, Right Side 100,
Rear 56, Turret 80, and the values sum to 480. -/
theorem C8_scenario_A :
    calculate_armour_distribution 480 false false =
      [(Front, 144), (LeftSide, 100), (RightSide, 100), (Rear, 56), (Turret, 80)] ∧
    sumVals (calculate_armour_distribution 480 false false) = 480 := by
  have h1 : default_rounding 480 false =
      [(Front, 144), (LeftSide, 100), (RightSide, 100), (Rear, 56), (Turret, 80)] := by
    rw [default_rounding_false]
    norm_num [pyRound]
  have h2 : allocated 480 false = 480 := by rw [allocated, h1]; rfl
  have hmain : calculate_armour_distribution 480 false false =
      [(Front, 144), (LeftSide, 100), (RightSide, 100), (Rear, 56), (Turret, 80)] := by
    rw [calculate_armour_distribution]
    simp only [h1, h2]
    decide
  exact ⟨hmain, by rw [hmain]; rfl⟩

/-- C10: a negative total raises no error: the function still returns a table
over exactly the surviving facings for every negative total and both flags,
and in the default policy the values can be negative, as at total = -100
where Front receives -29. -/
theorem C10_negative_total (T : ℤ) (re rt : Bool) (hneg : T < 0) :
    keysOf (calculate_armour_distribution T re rt) = survivingFacings rt ∧
    getVal (calculate_armour_distribution (-100) false false) Front = -29 ∧
    getVal (calculate_armour_distribution (-100) false false) Front < 0 := by
  have h1 : default_rounding (-100) false =
      [(Front, -30), (LeftSide, -21), (RightSide, -21), (Rear, -12), (Turret, -17)] := by
    rw [default_rounding_false]
    norm_num [pyRound]
  have h2 : allocated (-100) false = -101 := by rw [allocated, h1]; rfl
  have hmain : calculate_armour_distribution (-100) false false =
      [(Front, -29), (LeftSide, -21), (RightSide, -21), (Rear, -12), (Turret, -17)] := by
    rw [calculate_armour_distribution]
    simp only [h1, h2]
    decide
  refine ⟨keysOf_calculate T re rt, ?_, ?_⟩ <;> rw [hmain] <;> decide

/-- Witness for C10 at the concrete negative input -1. -/
theorem C10_negative_total_witness :
    ((-1 : ℤ) < 0) ∧
    (keysOf (calculate_armour_distribution (-1) false false) = survivingFacings false ∧
     getVal (calculate_armour_distribution (-100) false false) Front = -29 ∧
     getVal (calculate_armour_distribution (-100) false false) Front < 0) :=
  ⟨by decide, C10_negative_total (-1) false false (by decide)⟩

/-- C6: removing the turret redistributes its share fully: no Turret key is
ever produced, the four remaining shares sum to 1 exactly, and each surviving
share is its base share plus a quarter of the turret share. -/
theorem C6_turret_removal (T : ℤ) (re : Bool) :
    Turret ∉ keysOf (calculate_armour_distribution T re true) ∧
    ((distribution_percent true).map (fun p => p.2)).sum = 1 ∧
    distribution_percent true =
      [(Front, 3/10 + (167/1000)/4), (LeftSide, 26/125 + (167/1000)/4),
       (RightSide, 26/125 + (167/1000)/4), (Rear, 117/1000 + (167/1000)/4)] := by
  refine ⟨?_, ?_, ?_⟩
  · rw [keysOf_calculate]
    simp [survivingFacings]
  · rw [distribution_percent_true]
    norm_num
  · rw [distribution_percent_true]
    norm_num

/-- C7: for every non-negative total and both flags, the result is a table
whose keys are exactly the surviving facings and whose values are all
non-negative. -/
theorem C7_output_guarantee (T : ℤ) (re rt : Bool) (hT : 0 ≤ T) :
    keysOf (calculate_armour_distribution T re rt) = survivingFacings rt ∧
    ∀ p ∈ calculate_armour_distribution T re rt, 0 ≤ p.2 := by
  have hTQ : (0 : ℚ) ≤ (T : ℚ) := by exact_mod_cast hT
  refine ⟨keysOf_calculate T re rt, ?_⟩
  cases re with
  | false =>
      rw [calculate_false_eq]
      cases rt with
      | false =>
          have hnn : ∀ p ∈ default_rounding T false, 0 ≤ p.2 := by
            rw [default_rounding_false]
            intro p hp
            simp only [List.mem_cons, List.not_mem_nil, or_false] at hp
            rcases hp with h | h | h | h | h <;> subst h <;>
              exact pyRound_nonneg _ (mul_nonneg hTQ (by norm_num))
          split_ifs with h
          · exact distribute_nonneg _ _ hnn
          · exact hnn
      | true =>
          have hnn : ∀ p ∈ default_rounding T true, 0 ≤ p.2 := by
            rw [default_rounding_true]
            intro p hp
            simp only [List.mem_cons, List.not_mem_nil, or_false] at hp
            rcases hp with h | h | h | h <;> subst h <;>
              exact pyRound_nonneg _ (mul_nonneg hTQ (by norm_num))
          split_ifs with h
          · exact distribute_nonneg _ _ hnn
          · exact hnn
  | true =>
      rw [calculate_true_eq]
      cases rt with
      | false =>
          have n1 : 0 ≤ round_up_to_5 ((T : ℚ) * (3/10)) :=
            round_up_to_5_nonneg _ (mul_nonneg hTQ (by norm_num))
          have n2 : 0 ≤ round_to_nearest_5 ((T : ℚ) * (26/125)) :=
            round_to_nearest_5_nonneg _ (mul_nonneg hTQ (by norm_num))
          have n3 : 0 ≤ round_to_nearest_5 ((T : ℚ) * (117/1000)) :=
            round_to_nearest_5_nonneg _ (mul_nonneg hTQ (by norm_num))
          have n4 : 0 ≤ round_to_nearest_5 ((T : ℚ) * (167/1000)) :=
            round_to_nearest_5_nonneg _ (mul_nonneg hTQ (by norm_num))
          rw [rounded_allocations_false, reconcile_eval5]
          split_ifs with h1 h2 h3 <;>
            · intro p hp
              simp only [List.mem_cons, List.not_mem_nil, or_false] at hp
              rcases hp with h | h | h | h | h <;> subst h <;> simp <;> omega
      | true =>
          have n1 : 0 ≤ round_up_to_5 ((T : ℚ) * (1367/4000)) :=
            round_up_to_5_nonneg _ (mul_nonneg hTQ (by norm_num))
          have n2 : 0 ≤ round_to_nearest_5 ((T : ℚ) * (999/4000)) :=
            round_to_nearest_5_nonneg _ (mul_nonneg hTQ (by norm_num))
          have n3 : 0 ≤ round_to_nearest_5 ((T : ℚ) * (127/800)) :=
            round_to_nearest_5_nonneg _ (mul_nonneg hTQ (by norm_num))
          rw [rounded_allocations_true, reconcile_eval4]
          split_ifs with h1 h2 h3 <;>
            · intro p hp
              simp only [List.mem_cons, List.not_mem_nil, or_false] at hp
              rcases hp with h | h | h | h <;> subst h <;> simp <;> omega

/-- Witness for C7 at the concrete input 480 with both flags false. -/
theorem C7_output_guarantee_witness :
    (0 ≤ (480 : ℤ)) ∧
    (keysOf (calculate_armour_distribution 480 false false) = survivingFacings false ∧
     ∀ p ∈ calculate_armour_distribution 480 false false, 0 ≤ p.2) :=
  ⟨by decide, C7_output_guarantee 480 false false (by decide)⟩

/-- C5: in the default policy, when the nearest-integer roundings fall short
of the total, the code's loop gives one extra point to each of the first
(shortfall) facings in table iteration order and leaves the rest unchanged,
and the final sum is exactly the requested total. -/
theorem C5_shortfall_distribution (T : ℤ) (rt : Bool) (hT : 0 ≤ T)
    (h : allocated T rt < T) :
    calculate_armour_distribution T false rt =
      spec_shortfall_distribution (T - allocated T rt) (default_rounding T rt) ∧
    sumVals (calculate_armour_distribution T false rt) = T := by
  have hpos : 0 < T - allocated T rt := by omega
  have hlen : T - allocated T rt ≤ (default_rounding T rt).length := by
    cases rt
    · have := sub_allocated_le_two_false T
      rw [default_rounding_false]
      simp only [List.length_cons, List.length_nil]
      omega
    · have := sub_allocated_le_two_true T
      rw [default_rounding_true]
      simp only [List.length_cons, List.length_nil]
      omega
  constructor
  · rw [calculate_false_eq, if_pos hpos]
    exact distribute_eq_spec _ _ (le_of_lt hpos) hlen
  · rw [calculate_false_eq, if_pos hpos,
      sumVals_distribute _ _ (le_of_lt hpos) hlen]
    rw [show sumVals (default_rounding T rt) = allocated T rt from rfl]
    omega

/-- Witness for C5 at total 1 (no turret removal): the roundings sum to 0 and
the single shortfall point goes to Front. -/
theorem C5_shortfall_distribution_witness :
    (0 ≤ (1 : ℤ)) ∧ allocated 1 false < 1 ∧
    (calculate_armour_distribution 1 false false =
       spec_shortfall_distribution (1 - allocated 1 false) (default_rounding 1 false) ∧
     sumVals (calculate_armour_distribution 1 false false) = 1) :=
  ⟨by decide, by rw [allocated_false]; norm_num [pyRound],
   C5_shortfall_distribution 1 false (by decide)
     (by rw [allocated_false]; norm_num [pyRound])⟩

/-- C9: implicit coarse-mode over-allocation with the turret removed: when
the multiple-of-5 roundings exceed the total and Rear cannot absorb the
overage, Rear is zeroed, no other facing is reduced, and the returned sum is
the rounded total minus Rear's original rounded value, which is strictly
greater than the requested total. -/
theorem C9_coarse_overallocation (T : ℤ)
    (h1 : T < total_rounded T true)
    (h2 : getVal (rounded_allocations T true) Rear < total_rounded T true - T) :
    calculate_armour_distribution T true true =
      setVal (rounded_allocations T true) Rear 0 ∧
    sumVals (calculate_armour_distribution T true true) =
      total_rounded T true - getVal (rounded_allocations T true) Rear ∧
    T < sumVals (calculate_armour_distribution T true true) := by
  simp only [calculate_true_eq, total_rounded_true, rounded_allocations_true] at h1 h2 ⊢
  simp [getVal] at h2
  rw [reconcile_eval4]
  split_ifs with ha hb
  all_goals try (exfalso; omega)
  refine ⟨by simp [setVal], ?_, ?_⟩
  · simp [sumVals, getVal]
    omega
  · simp [sumVals]
    omega

/-- Witness for C9 at total 1: the roundings are Front 5 and 0 elsewhere, so
the rounded total 5 exceeds 1 and Rear (0) cannot absorb the overage 4. -/
theorem C9_coarse_overallocation_witness :
    ((1 : ℤ) < total_rounded 1 true) ∧
    (getVal (rounded_allocations 1 true) Rear < total_rounded 1 true - 1) ∧
    (calculate_armour_distribution 1 true true =
       setVal (rounded_allocations 1 true) Rear 0 ∧
     sumVals (calculate_armour_distribution 1 true true) =
       total_rounded 1 true - getVal (rounded_allocations 1 true) Rear ∧
     1 < sumVals (calculate_armour_distribution 1 true true)) := by
  have hra : rounded_allocations 1 true =
      [(Front, 5), (LeftSide, 0), (RightSide, 0), (Rear, 0)] := by
    rw [rounded_allocations_true]
    norm_num [round_up_to_5, round_to_nearest_5, pyRound, ceil_as_floor]
  have e1 : (1 : ℤ) < total_rounded 1 true := by
    rw [total_rounded, hra]; decide
  have e2 : getVal (rounded_allocations 1 true) Rear < total_rounded 1 true - 1 := by
    rw [total_rounded, hra]; decide
  exact ⟨e1, e2, C9_coarse_overallocation 1 e1 e2⟩

/-- C2: the coarse-policy overage reconciliation. For a non-negative total
whose multiple-of-5 roundings exceed it, the overage comes out of Rear when
Rear's rounded value can absorb it, leaving every other facing unchanged;
otherwise Rear drops to 0, the remaining deficit comes out of Turret (clamped
at 0) when Turret survives, and the facings other than Rear and Turret are
unchanged. -/
theorem C2_coarse_overage_reconciliation (T : ℤ) (rt : Bool) (hT : 0 ≤ T)
    (h : T < total_rounded T rt) :
    (total_rounded T rt - T ≤ getVal (rounded_allocations T rt) Rear →
      getVal (calculate_armour_distribution T true rt) Rear =
        getVal (rounded_allocations T rt) Rear - (total_rounded T rt - T) ∧
      ∀ f, f ≠ Rear →
        getVal (calculate_armour_distribution T true rt) f =
          getVal (rounded_allocations T rt) f) ∧
    (getVal (rounded_allocations T rt) Rear < total_rounded T rt - T →
      getVal (calculate_armour_distribution T true rt) Rear = 0 ∧
      (hasKey (rounded_allocations T rt) Turret = true →
        getVal (calculate_armour_distribution T true rt) Turret =
          max 0 (getVal (rounded_allocations T rt) Turret -
            (total_rounded T rt - T - getVal (rounded_allocations T rt) Rear))) ∧
      ∀ f, f ≠ Rear → f ≠ Turret →
        getVal (calculate_armour_distribution T true rt) f =
          getVal (rounded_allocations T rt) f) := by
  cases rt with
  | false =>
      simp only [calculate_true_eq, total_rounded_false, rounded_allocations_false] at h ⊢
      rw [reconcile_eval5]
      rw [if_pos h]
      split_ifs with hb
      · constructor
        · intro hle
          refine ⟨by simp [getVal], ?_⟩
          intro f hf
          cases f <;> simp_all [getVal]
        · intro hlt
          exfalso
          simp [getVal] at hlt
          omega
      · constructor
        · intro hle
          exfalso
          simp [getVal] at hle
          omega
        · intro hlt
          refine ⟨by simp [getVal], ?_, ?_⟩
          · intro hk
            simp [getVal]
          · intro f hf hft
            cases f <;> simp_all [getVal]
  | true =>
      simp only [calculate_true_eq, total_rounded_true, rounded_allocations_true] at h ⊢
      rw [reconcile_eval4]
      rw [if_pos h]
      split_ifs with hb
      · constructor
        · intro hle
          refine ⟨by simp [getVal], ?_⟩
          intro f hf
          cases f <;> simp_all [getVal]
        · intro hlt
          exfalso
          simp [getVal] at hlt
          omega
      · constructor
        · intro hle
          exfalso
          simp [getVal] at hle
          omega
        · intro hlt
          refine ⟨by simp [getVal], ?_, ?_⟩
          · intro hk
            simp [hasKey] at hk
          · intro f hf hft
            cases f <;> simp_all [getVal]

/-- Witness for C2 at total 160: the roundings are 50, 35, 35, 20, 25 with
sum 165, an overage of 5 that Rear's 20 absorbs. -/
theorem C2_coarse_overage_reconciliation_witness :
    (0 ≤ (160 : ℤ)) ∧ (160 < total_rounded 160 false) ∧
    ((total_rounded 160 false - 160 ≤ getVal (rounded_allocations 160 false) Rear →
      getVal (calculate_armour_distribution 160 true false) Rear =
        getVal (rounded_allocations 160 false) Rear - (total_rounded 160 false - 160) ∧
      ∀ f, f ≠ Rear →
        getVal (calculate_armour_distribution 160 true false) f =
          getVal (rounded_allocations 160 false) f) ∧
    (getVal (rounded_allocations 160 false) Rear < total_rounded 160 false - 160 →
      getVal (calculate_armour_distribution 160 true false) Rear = 0 ∧
      (hasKey (rounded_allocations 160 false) Turret = true →
        getVal (calculate_armour_distribution 160 true false) Turret =
          max 0 (getVal (rounded_allocations 160 false) Turret -
            (total_rounded 160 false - 160 - getVal (rounded_allocations 160 false) Rear))) ∧
      ∀ f, f ≠ Rear → f ≠ Turret →
        getVal (calculate_armour_distribution 160 true false) f =
          getVal (rounded_allocations 160 false) f)) := by
  have e1 : (160 : ℤ) < total_rounded 160 false := by
    rw [total_rounded_false]
    norm_num [round_up_to_5, round_to_nearest_5, pyRound, ceil_as_floor]
  exact ⟨by decide, e1, C2_coarse_overage_reconciliation 160 false (by decide) e1⟩

/-- round_up_to_5 never falls below its argument. -/
theorem le_round_up_to_5 (q : ℚ) : q ≤ (round_up_to_5 q : ℚ) := by
  unfold round_up_to_5
  have hc := Int.le_ceil (q / 5)
  push_cast
  linarith

/-- round_up_to_5 overshoots its argument by less than 5. -/
theorem round_up_to_5_lt (q : ℚ) : (round_up_to_5 q : ℚ) - 5 < q := by
  unfold round_up_to_5
  have hc := Int.ceil_lt_add_one (q / 5)
  push_cast
  linarith

/-- C3 as stated fails: at total 6 with coarse rounding the rounded values
5, 0, 0, 0, 0 fall short of 6, the shortfall of 1 is added to Front, and the
returned Front value 6 is not divisible by 5. -/
theorem C3_counterexample_at_6 :
    getVal (calculate_armour_distribution 6 true false) Front = 6 ∧
    ¬ ((5 : ℤ) ∣ getVal (calculate_armour_distribution 6 true false) Front) := by
  have hra : rounded_allocations 6 false =
      [(Front, 5), (LeftSide, 0), (RightSide, 0), (Rear, 0), (Turret, 0)] := by
    rw [rounded_allocations_false]
    norm_num [round_up_to_5, round_to_nearest_5, pyRound, ceil_as_floor]
  have hmain : calculate_armour_distribution 6 true false =
      [(Front, 6), (LeftSide, 0), (RightSide, 0), (Rear, 0), (Turret, 0)] := by
    rw [calculate_true_eq, hra]
    decide
  refine ⟨by rw [hmain]; decide, by rw [hmain]; decide⟩

/-- C3 amended: every pre-reconciliation coarse value is divisible by 5, and
whenever the total itself is divisible by 5 every value of the final result
is also divisible by 5; for other totals the reconciliation step shifts one
facing by the total's residue (see the counterexample at 6). -/
theorem C3_amended_multiple_of_5 (T : ℤ) (rt : Bool) :
    (∀ p ∈ rounded_allocations T rt, (5 : ℤ) ∣ p.2) ∧
    ((5 : ℤ) ∣ T → ∀ p ∈ calculate_armour_distribution T true rt, (5 : ℤ) ∣ p.2) := by
  cases rt with
  | false =>
      have d1 := round_up_to_5_dvd ((T : ℚ) * (3/10))
      have d2 := round_to_nearest_5_dvd ((T : ℚ) * (26/125))
      have d3 := round_to_nearest_5_dvd ((T : ℚ) * (117/1000))
      have d4 := round_to_nearest_5_dvd ((T : ℚ) * (167/1000))
      constructor
      · rw [rounded_allocations_false]
        intro p hp
        simp only [List.mem_cons, List.not_mem_nil, or_false] at hp
        rcases hp with h | h | h | h | h <;> subst h <;>
          first | exact d1 | exact d2 | exact d3 | exact d4
      · intro hT5
        rw [calculate_true_eq, rounded_allocations_false, reconcile_eval5]
        split_ifs with h1 h2 h3 <;>
          · intro p hp
            simp only [List.mem_cons, List.not_mem_nil, or_false] at hp
            rcases hp with h | h | h | h | h <;> subst h <;> simp <;> omega
  | true =>
      have d1 := round_up_to_5_dvd ((T : ℚ) * (1367/4000))
      have d2 := round_to_nearest_5_dvd ((T : ℚ) * (999/4000))
      have d3 := round_to_nearest_5_dvd ((T : ℚ) * (127/800))
      constructor
      · rw [rounded_allocations_true]
        intro p hp
        simp only [List.mem_cons, List.not_mem_nil, or_false] at hp
        rcases hp with h | h | h | h <;> subst h <;>
          first | exact d1 | exact d2 | exact d3
      · intro hT5
        rw [calculate_true_eq, rounded_allocations_true, reconcile_eval4]
        split_ifs with h1 h2 h3 <;>
          · intro p hp
            simp only [List.mem_cons, List.not_mem_nil, or_false] at hp
            rcases hp with h | h | h | h <;> subst h <;> simp <;> omega

/-- Witness for the amended C3 at total 20 (a multiple of 5). -/
theorem C3_amended_multiple_of_5_witness :
    (∀ p ∈ rounded_allocations 20 false, (5 : ℤ) ∣ p.2) ∧
    ((5 : ℤ) ∣ (20 : ℤ)) ∧
    (∀ p ∈ calculate_armour_distribution 20 true false, (5 : ℤ) ∣ p.2) :=
  ⟨(C3_amended_multiple_of_5 20 false).1, by decide,
   (C3_amended_multiple_of_5 20 false).2 (by decide)⟩

/-- C4 as stated fails: at total 6, Front's raw share 9/5 is not a multiple
of 5, yet the returned Front value is 6 — not a multiple of 5 at all, so not
the smallest multiple of 5 above the raw share — because the shortfall pass
added 1 to Front's pre-reconciliation value 5. -/
theorem C4_counterexample_at_6 :
    getValQ (raw_allocations 6 false) Front = 9/5 ∧
    (5 : ℚ) * ⌈(getValQ (raw_allocations 6 false) Front) / 5⌉ ≠
      getValQ (raw_allocations 6 false) Front ∧
    getVal (calculate_armour_distribution 6 true false) Front = 6 ∧
    ¬ ((5 : ℤ) ∣ getVal (calculate_armour_distribution 6 true false) Front) := by
  have hraw : getValQ (raw_allocations 6 false) Front = 9/5 := by
    rw [raw_allocations_false]
    simp [getValQ]
    norm_num
  have hra : rounded_allocations 6 false =
      [(Front, 5), (LeftSide, 0), (RightSide, 0), (Rear, 0), (Turret, 0)] := by
    rw [rounded_allocations_false]
    norm_num [round_up_to_5, round_to_nearest_5, pyRound, ceil_as_floor]
  have hmain : calculate_armour_distribution 6 true false =
      [(Front, 6), (LeftSide, 0), (RightSide, 0), (Rear, 0), (Turret, 0)] := by
    rw [calculate_true_eq, hra]
    decide
  refine ⟨hraw, ?_, by rw [hmain]; decide, by rw [hmain]; decide⟩
  rw [hraw]
  rw [show ⌈(9/5 : ℚ) / 5⌉ = 1 by rw [ceil_as_floor]; norm_num]
  norm_num

/-- C4 amended: the statement holds of the pre-reconciliation rounded
allocation. When Front's raw share is not already a multiple of 5, Front's
rounded value is round_up_to_5 of it: a multiple of 5, strictly above the raw
share and within 5 of it (hence the smallest multiple of 5 that is ≥ the raw
share); every other surviving facing's rounded value is round_to_nearest_5 of
its raw share. The final output can then be changed by reconciliation. -/
theorem C4_amended_front_rounds_up (T : ℤ) (rt : Bool)
    (h : (5 : ℚ) * ⌈(getValQ (raw_allocations T rt) Front) / 5⌉ ≠
         getValQ (raw_allocations T rt) Front) :
    getVal (rounded_allocations T rt) Front =
      round_up_to_5 (getValQ (raw_allocations T rt) Front) ∧
    (5 : ℤ) ∣ getVal (rounded_allocations T rt) Front ∧
    getValQ (raw_allocations T rt) Front <
      (getVal (rounded_allocations T rt) Front : ℚ) ∧
    (getVal (rounded_allocations T rt) Front : ℚ) - 5 <
      getValQ (raw_allocations T rt) Front ∧
    getVal (rounded_allocations T rt) LeftSide =
      round_to_nearest_5 (getValQ (raw_allocations T rt) LeftSide) ∧
    getVal (rounded_allocations T rt) RightSide =
      round_to_nearest_5 (getValQ (raw_allocations T rt) RightSide) ∧
    getVal (rounded_allocations T rt) Rear =
      round_to_nearest_5 (getValQ (raw_allocations T rt) Rear) ∧
    getVal (rounded_allocations T rt) Turret =
      round_to_nearest_5 (getValQ (raw_allocations T rt) Turret) := by
  have hz : round_to_nearest_5 (0 : ℚ) = 0 := by
    norm_num [round_to_nearest_5, pyRound]
  cases rt with
  | false =>
      rw [raw_allocations_false] at h
      simp [getValQ] at h
      rw [rounded_allocations_false, raw_allocations_false]
      have hne : ((round_up_to_5 ((T : ℚ) * (3/10)) : ℤ) : ℚ) ≠ (T : ℚ) * (3/10) := by
        unfold round_up_to_5
        push_cast
        intro hc
        exact h hc
      refine ⟨?_, ?_, ?_, ?_, ?_, ?_, ?_, ?_⟩
      · simp [getVal, getValQ]
      · simp [getVal, round_up_to_5, dvd_mul_right]
      · simp [getVal, getValQ]
        exact lt_of_le_of_ne (le_round_up_to_5 _) (Ne.symm hne)
      · simp [getVal, getValQ]
        exact round_up_to_5_lt _
      · simp [getVal, getValQ]
      · simp [getVal, getValQ]
      · simp [getVal, getValQ]
      · simp [getVal, getValQ]
  | true =>
      rw [raw_allocations_true] at h
      simp [getValQ] at h
      rw [rounded_allocations_true, raw_allocations_true]
      have hne : ((round_up_to_5 ((T : ℚ) * (1367/4000)) : ℤ) : ℚ) ≠ (T : ℚ) * (1367/4000) := by
        unfold round_up_to_5
        push_cast
        intro hc
        exact h hc
      refine ⟨?_, ?_, ?_, ?_, ?_, ?_, ?_, ?_⟩
      · simp [getVal, getValQ]
      · simp [getVal, round_up_to_5, dvd_mul_right]
      · simp [getVal, getValQ]
        exact lt_of_le_of_ne (le_round_up_to_5 _) (Ne.symm hne)
      · simp [getVal, getValQ]
        exact round_up_to_5_lt _
      · simp [getVal, getValQ]
      · simp [getVal, getValQ]
      · simp [getVal, getValQ]
      · simp [getVal, getValQ, hz]

/-- Witness for the amended C4 at total 6 (no turret removal): Front's raw
share 9/5 is not a multiple of 5. -/
theorem C4_amended_front_rounds_up_witness :
    ((5 : ℚ) * ⌈(getValQ (raw_allocations 6 false) Front) / 5⌉ ≠
       getValQ (raw_allocations 6 false) Front) ∧
    (getVal (rounded_allocations 6 false) Front =
       round_up_to_5 (getValQ (raw_allocations 6 false) Front) ∧
     (5 : ℤ) ∣ getVal (rounded_allocations 6 false) Front ∧
     getValQ (raw_allocations 6 false) Front <
       (getVal (rounded_allocations 6 false) Front : ℚ) ∧
     (getVal (rounded_allocations 6 false) Front : ℚ) - 5 <
       getValQ (raw_allocations 6 false) Front ∧
     getVal (rounded_allocations 6 false) LeftSide =
       round_to_nearest_5 (getValQ (raw_allocations 6 false) LeftSide) ∧
     getVal (rounded_allocations 6 false) RightSide =
       round_to_nearest_5 (getValQ (raw_allocations 6 false) RightSide) ∧
     getVal (rounded_allocations 6 false) Rear =
       round_to_nearest_5 (getValQ (raw_allocations 6 false) Rear) ∧
     getVal (rounded_allocations 6 false) Turret =
       round_to_nearest_5 (getValQ (raw_allocations 6 false) Turret)) := by
  have hh : (5 : ℚ) * ⌈(getValQ (raw_allocations 6 false) Front) / 5⌉ ≠
      getValQ (raw_allocations 6 false) Front := by
    rw [raw_allocations_false]
    simp [getValQ]
    rw [show ((6 : ℚ) * (3/10)) = 9/5 by norm_num]
    rw [show ⌈(9/5 : ℚ) / 5⌉ = 1 by rw [ceil_as_floor]; norm_num]
    norm_num
  exact ⟨hh, C4_amended_front_rounds_up 6 false hh⟩

end BVAC
